import Mathlib

/-!
Verification of the RAG core of the NCERT voice tutor.

Shallow embedding of:
* `backend/rag/vector_store.py` — FAISS flat-L2 index plus a parallel metadata
  log, module-level state lazily loaded from two on-disk artifacts;
* `backend/rag/retriever.py`   — threshold / source filtering on search results;
* `backend/rag/chunker.py`     — rule-based chunking with per-call sequential ids;
* `backend/rag/pdf_loader.py`  — page-by-page extraction and text cleaning.

Real numbers of the Python/numpy code are modelled as rationals; the FAISS
`IndexFlatL2` collaborator is modelled by an exact squared-L2 scan, which is
what the flat index computes.  The sentence-transformers embedder is an
external deterministic collaborator, so functions that embed a query in the
source take the query's embedding vector as an argument here.
-/

namespace VoiceTutor

/-- A dense vector (one row of a numpy array), modelled over `ℚ`. -/
abbrev Vec := List ℚ

/-- A chunk record as built by `chunker.py` — the dicts with keys
`text`, `page`, `chunk_id`, `pdf_name`.  The very same dicts are the
metadata entries stored by `vector_store.py`. -/
structure Chunk where
  text : String
  page : Nat
  chunk_id : Nat
  pdf_name : String
deriving Repr, DecidableEq

/-- A 2-dimensional numpy array of shape `(rows.length, width)`:
`width` is `shape[1]`, the entry FAISS checks against the index dimension. -/
structure NpMatrix where
  width : Nat
  rows : List Vec
deriving Repr, DecidableEq

/-- The state of a `faiss.IndexFlatL2`: its fixed dimension `d` and the
stored vectors in insertion order (`ntotal = vectors.length`). -/
structure FaissIndex where
  dim : Nat
  vectors : List Vec
deriving Repr, DecidableEq

/-- The two persisted artifacts (`index.faiss`, `metadata.json`); `none`
means the file does not exist on disk. -/
structure Disk where
  indexFile : Option FaissIndex
  metadataFile : Option (List Chunk)
deriving Repr, DecidableEq

/-- The module-level state of `vector_store.py`: the globals `_index` and
`_metadata` plus the on-disk artifacts. -/
structure ModuleState where
  index : Option FaissIndex
  metadata : List Chunk
  disk : Disk
deriving Repr, DecidableEq

/-- State at first process start of a fresh deployment: no index in memory,
empty metadata list, no files on disk. -/
def initialState : ModuleState := ⟨none, [], ⟨none, none⟩⟩

/-- `_ensure_loaded`: load index and metadata from disk if not already in
memory; the load happens only when both files exist. -/
def ensure_loaded (s : ModuleState) : ModuleState :=
  match s.index with
  | some _ => s
  | none =>
    match s.disk.indexFile, s.disk.metadataFile with
    | some idx, some md => { s with index := some idx, metadata := md }
    | _, _ => s

/-- `_save`: persist index and metadata to disk.  The index file is written
only when an index exists; the metadata file is always written. -/
def save (s : ModuleState) : ModuleState :=
  { s with
    disk :=
      { indexFile := match s.index with
          | some idx => some idx
          | none => s.disk.indexFile
        metadataFile := some s.metadata } }

/-- Squared L2 distance, the metric `IndexFlatL2` reports. -/
def l2sq (a b : Vec) : ℚ :=
  ((List.zip a b).map (fun p => (p.1 - p.2) ^ 2)).sum

/-- `faiss.IndexFlatL2.add`: the Python wrapper asserts
`x.shape[1] == self.d` before copying any data, so a dimension mismatch
raises and leaves the index untouched; otherwise the rows are appended in
input order. -/
def faissAdd (idx : FaissIndex) (x : NpMatrix) : Except String FaissIndex :=
  if x.width = idx.dim then
    Except.ok { idx with vectors := idx.vectors ++ x.rows }
  else
    Except.error "assert d == self.d"

/-- Insert one `(index, distance)` pair into a list sorted by ascending
distance, after all entries of equal distance (stable). -/
def insertByDist (x : Int × ℚ) : List (Int × ℚ) → List (Int × ℚ)
  | [] => [x]
  | y :: ys => if x.2 < y.2 then x :: y :: ys else y :: insertByDist x ys

/-- Sort `(index, distance)` pairs by ascending distance. -/
def sortByDist : List (Int × ℚ) → List (Int × ℚ)
  | [] => []
  | x :: xs => insertByDist x (sortByDist xs)

/-- `faiss.IndexFlatL2.search` for one query: an exact scan over all stored
vectors, returning exactly `k` `(index, distance)` pairs nearest-first and
padding with index `-1` when fewer than `k` vectors are stored. -/
def faissSearch (idx : FaissIndex) (q : Vec) (k : Nat) : List (Int × ℚ) :=
  let scored := idx.vectors.enum.map (fun p => ((p.1 : Int), l2sq q p.2))
  let sorted := sortByDist scored
  sorted.take k ++ List.replicate (k - sorted.length) ((-1 : Int), 0)

/-- `add_to_index(embeddings, chunks_metadata)`: create the index on first
use with dimension `embeddings.shape[1]`, append the vectors and extend the
metadata list, then persist both.  The returned state is the module state
after the call in both the normal and the raising case. -/
def add_to_index (s0 : ModuleState) (embeddings : NpMatrix)
    (chunks_metadata : List Chunk) : ModuleState × Except String Unit :=
  let s := ensure_loaded s0
  let dim := embeddings.width
  let p : FaissIndex × ModuleState :=
    match s.index with
    | none => (⟨dim, []⟩, { s with index := some ⟨dim, []⟩, metadata := [] })
    | some idx => (idx, s)
  match faissAdd p.1 embeddings with
  | Except.error e => (p.2, Except.error e)
  | Except.ok idx2 =>
    (save { p.2 with index := some idx2,
                     metadata := p.2.metadata ++ chunks_metadata },
     Except.ok ())

/-- `search(query_embedding, top_k)`: empty result on a missing or empty
index; otherwise the FAISS scan, skipping `-1` padding entries and keeping
only indices inside the metadata list. -/
def search (s0 : ModuleState) (query_embedding : Vec) (top_k : Nat) :
    ModuleState × List (Chunk × ℚ) :=
  let s := ensure_loaded s0
  match s.index with
  | none => (s, [])
  | some idx =>
    if idx.vectors.length = 0 then (s, [])
    else
      (s, (faissSearch idx query_embedding top_k).filterMap (fun p =>
        if p.1 = -1 then none
        else if h : p.1.toNat < s.metadata.length then
          some (s.metadata.get ⟨p.1.toNat, h⟩, p.2)
        else none))

/-- `get_index_size()`: total number of vectors (`ntotal`, or 0 with no
index). -/
def get_index_size (s0 : ModuleState) : ModuleState × Nat :=
  let s := ensure_loaded s0
  (s, match s.index with
      | some idx => idx.vectors.length
      | none => 0)

/-- `get_indexed_pdfs()`: the distinct `pdf_name` values across all metadata
entries.  Python returns `list(set(...))` in unspecified order; the set
itself is modelled. -/
def get_indexed_pdfs (s0 : ModuleState) : ModuleState × Finset String :=
  let s := ensure_loaded s0
  (s, (s.metadata.map (fun m => m.pdf_name)).toFinset)

/-- `clear_index()`: drop the in-memory index and metadata and delete both
files from disk. -/
def clear_index (_s : ModuleState) : ModuleState :=
  ⟨none, [], ⟨none, none⟩⟩

/-! ## `pdf_loader.py` -/

/-- Python whitespace, as used by `str.strip()` on ASCII text:
space, tab, newline, carriage return, vertical tab, form feed. -/
def isPySpace (c : Char) : Bool :=
  c = ' ' ∨ c = '\t' ∨ c = '\n' ∨ c = '\r' ∨
  c = Char.ofNat 11 ∨ c = Char.ofNat 12

/-- Python `str.strip()`: drop leading and trailing whitespace. -/
def pyStrip (s : String) : String :=
  ⟨((s.data.dropWhile isPySpace).reverse.dropWhile isPySpace).reverse⟩

/-- Split a character list at every character satisfying `p`, keeping empty
pieces — the semantics of Python's `str.split(sep)` at character level. -/
def splitOnPred (p : Char → Bool) : List Char → List (List Char)
  | [] => [[]]
  | c :: cs =>
    if p c then [] :: splitOnPred p cs
    else
      match splitOnPred p cs with
      | [] => [[c]]
      | h :: t => (c :: h) :: t

/-- Python `text.split("\n")`: split at each newline, keeping empty pieces. -/
def pySplitNL (s : String) : List String :=
  (splitOnPred (fun c => c = '\n') s.data).map (fun l => ⟨l⟩)

/-- The loop body of `_clean_text`: strip each line, keep the non-blank
ones. -/
def clean_lines : List String → List String
  | [] => []
  | line :: rest =>
    let stripped := pyStrip line
    if stripped ≠ "" then stripped :: clean_lines rest
    else clean_lines rest

/-- `_clean_text(text)`: split into lines, strip each, drop blank lines,
join the survivors with single spaces. -/
def clean_text (text : String) : String :=
  String.intercalate " " (clean_lines (pySplitNL text))

/-- One extracted page record, the dicts
`{"page": i+1, "text": cleaned, "pdf_name": name}` of `pdf_loader.py`. -/
structure PageData where
  page : Nat
  text : String
  pdf_name : String
deriving Repr, DecidableEq

/-- The extraction loop of `extract_text_from_pdf`: `i` is the 0-based
position of the next raw page; `page.extract_text()` returning `None` is
`none`.  A page is kept when `text and text.strip()` is truthy. -/
def extractGo (pdf_name : String) : Nat → List (Option String) → List PageData
  | _, [] => []
  | i, t? :: rest =>
    match t? with
    | some text =>
      if text ≠ "" ∧ pyStrip text ≠ "" then
        ⟨i + 1, clean_text text, pdf_name⟩ :: extractGo pdf_name (i + 1) rest
      else extractGo pdf_name (i + 1) rest
    | none => extractGo pdf_name (i + 1) rest

/-- `extract_text_from_pdf`: per-page raw text (from the pdfplumber
collaborator) to cleaned `PageData`, 1-based page numbers. -/
def extract_text_from_pdf (pdf_name : String) (raw_pages : List (Option String)) :
    List PageData :=
  extractGo pdf_name 0 raw_pages

/-! ## `chunker.py` (rule-based path) -/

/-- Chunking configuration of `chunker.py`. -/
def CHUNK_SIZE : Nat := 800

/-- Overlap configuration of `chunker.py`. -/
def CHUNK_OVERLAP : Nat := 150

/-- The loop of `_chunk_pages_simple`: `split_text` is the
`RecursiveCharacterTextSplitter.split_text` collaborator, `gid` the running
`global_chunk_id`.  Pages whose text strips to empty are skipped; each piece
becomes one chunk carrying the page's number and pdf name and the next id. -/
def chunkGo (split_text : String → List String) :
    List PageData → Nat → List Chunk
  | [], _ => []
  | pd :: rest, gid =>
    if pyStrip pd.text = "" then chunkGo split_text rest gid
    else
      let pieces := split_text pd.text
      (pieces.enum.map (fun p =>
        ⟨p.2, pd.page, gid + p.1, pd.pdf_name⟩)) ++
      chunkGo split_text rest (gid + pieces.length)

/-- `_chunk_pages_simple(pages_data)`: the rule-based chunker.  It starts
`global_chunk_id` at 0 on every call. -/
def chunk_pages_simple (split_text : String → List String)
    (pages_data : List PageData) : List Chunk :=
  chunkGo split_text pages_data 0

/-- `RecursiveCharacterTextSplitter.split_text` on a short text: a text of
at most `CHUNK_SIZE` characters fits under the size target at the first
separator level and is returned unchanged as a single piece.  Used to build
concrete scenarios without modelling the full recursive splitter. -/
def splitShort (t : String) : List String := [t]

/-! ## `retriever.py` -/

/-- Distance threshold of `retriever.py` (`RELEVANCE_THRESHOLD = 1.2`). -/
def RELEVANCE_THRESHOLD : ℚ := 6 / 5

/-- Default result count of `retriever.py`. -/
def DEFAULT_TOP_K : Nat := 5

/-- Python truthiness of the `Optional[str]` filter argument: `None` and
the empty string are falsy. -/
def truthy : Option String → Bool
  | none => false
  | some s => s ≠ ""

/-- Python 3 `round` to an integer: round half to even. -/
def roundHalfEven (q : ℚ) : ℤ :=
  let f : ℤ := ⌊q⌋
  let r : ℚ := q - f
  if r < 1 / 2 then f
  else if 1 / 2 < r then f + 1
  else if f % 2 = 0 then f else f + 1

/-- Python `round(x, 4)` on the exact rational model of the score. -/
def pyRound4 (q : ℚ) : ℚ := (roundHalfEven (q * 10000) : ℚ) / 10000

/-- A retrieved chunk: the metadata dict spread together with the rounded
`score` field. -/
structure RetrievedChunk where
  text : String
  page : Nat
  chunk_id : Nat
  pdf_name : String
  score : ℚ
deriving Repr, DecidableEq

/-- Build the result dict `{**metadata, "score": round(distance, 4)}`. -/
def toRC (p : Chunk × ℚ) : RetrievedChunk :=
  ⟨p.1.text, p.1.page, p.1.chunk_id, p.1.pdf_name, pyRound4 p.2⟩

/-- Number of candidates fetched by `retrieve`:
`top_k * 3 if pdf_filter else top_k` (Python truthiness). -/
def fetch_k (pdf_filter : Option String) (top_k : Nat) : Nat :=
  if truthy pdf_filter then top_k * 3 else top_k

/-- The filtering loop of `retrieve`: skip candidates over the threshold,
skip candidates failing a truthy pdf filter, append otherwise, and break
once the result length has reached `top_k` (checked after appending, so
`budget` is `top_k` minus the number already kept). -/
def retrieveLoop (threshold : ℚ) (pdf_filter : Option String) :
    Nat → List (Chunk × ℚ) → List RetrievedChunk
  | _, [] => []
  | budget, (metadata, distance) :: rest =>
    if threshold < distance then
      retrieveLoop threshold pdf_filter budget rest
    else if truthy pdf_filter ∧ metadata.pdf_name ≠ pdf_filter.getD "" then
      retrieveLoop threshold pdf_filter budget rest
    else if budget ≤ 1 then [toRC (metadata, distance)]
    else toRC (metadata, distance) :: retrieveLoop threshold pdf_filter (budget - 1) rest

/-- `retrieve(query, top_k, threshold, pdf_filter)`.  The sentence
transformer is an external deterministic collaborator, so the query's
embedding is passed directly in place of the query text. -/
def retrieve (query_embedding : Vec) (s : ModuleState) (top_k : Nat)
    (threshold : ℚ) (pdf_filter : Option String) :
    ModuleState × List RetrievedChunk :=
  let p := search s query_embedding (fetch_k pdf_filter top_k)
  (p.1, retrieveLoop threshold pdf_filter top_k p.2)

/-! ## Derived predicates and spec-side formulations -/

/-- The candidates the retrieval loop keeps: distance within the threshold
and, under a truthy pdf filter, a matching pdf name. -/
def keepB (threshold : ℚ) (pdf_filter : Option String) (p : Chunk × ℚ) : Bool :=
  !(threshold < p.2 : Bool) &&
  !(truthy pdf_filter && (p.1.pdf_name ≠ pdf_filter.getD "" : Bool))

/-- Number of vectors held in memory (0 when no index object exists). -/
def memSize (s : ModuleState) : Nat :=
  match s.index with
  | some idx => idx.vectors.length
  | none => 0

/-- States reachable by the vector-store operations from a fresh deployment:
the in-memory vector count matches the metadata list, persisted artifacts are
mutually consistent, and no artifact survives without an in-memory index. -/
def Inv (s : ModuleState) : Prop :=
  memSize s = s.metadata.length ∧
  (∀ idx md, s.disk.indexFile = some idx → s.disk.metadataFile = some md →
    idx.vectors.length = md.length) ∧
  (s.index = none → s.disk = ⟨none, none⟩)

/-- The cleaning transform exactly as the claim words it: collapse internal
whitespace and newlines within each line, drop blank lines, join the
surviving lines with single spaces. -/
def cleanTextClaim (text : String) : String :=
  let collapsed := (pySplitNL text).map (fun line =>
    String.intercalate " "
      (((splitOnPred isPySpace line.data).map (fun l => (⟨l⟩ : String))).filter
        (fun w => w ≠ "")))
  String.intercalate " " (collapsed.filter (fun l => l ≠ ""))

/-- The Text Extractor contract in the amended claim's words: emit one Page
per raw page containing a non-whitespace character, numbered by physical
position, whose text is the raw text split at newlines, each line stripped
of leading and trailing whitespace, blank lines dropped, and the survivors
joined with single spaces. -/
def extractClaim (pdf_name : String) (raw_pages : List (Option String)) :
    List PageData :=
  raw_pages.enum.filterMap (fun p =>
    match p.2 with
    | some t =>
      if t.data.any (fun c => !(isPySpace c)) then
        some ⟨p.1 + 1,
              String.intercalate " "
                (((pySplitNL t).map pyStrip).filter (fun l => l ≠ "")),
              pdf_name⟩
      else none
    | none => none)

/-- The one step folded over a sequence of `add` calls: the module state
after `add_to_index`, whether the call returned normally or raised. -/
def addStep (s : ModuleState) (op : NpMatrix × List Chunk) : ModuleState :=
  (add_to_index s op.1 op.2).1

/-! ## Helper lemmas -/

theorem ensure_loaded_idem (s : ModuleState) :
    ensure_loaded (ensure_loaded s) = ensure_loaded s := by
  unfold ensure_loaded
  cases h : s.index with
  | some idx => simp [h]
  | none =>
    cases h1 : s.disk.indexFile with
    | none => simp [h, h1]
    | some idx =>
      cases h2 : s.disk.metadataFile with
      | none => simp [h, h1, h2]
      | some md => simp [h, h1, h2]

theorem ensure_loaded_of_some {s : ModuleState} {idx : FaissIndex}
    (h : s.index = some idx) : ensure_loaded s = s := by
  unfold ensure_loaded
  simp [h]

theorem get_index_size_ensure_loaded (s : ModuleState) :
    (get_index_size (ensure_loaded s)).2 = (get_index_size s).2 := by
  unfold get_index_size
  rw [ensure_loaded_idem]

/-! ## Claim theorems -/

/-- C7: `clear()` is idempotent — clearing twice leaves exactly the state of
clearing once — and after any `clear()` the index reports `size() == 0` and
an empty set of distinct sources. -/
theorem C7_clear_idempotent (s : ModuleState) :
    clear_index (clear_index s) = clear_index s ∧
    (get_index_size (clear_index s)).2 = 0 ∧
    (get_indexed_pdfs (clear_index s)).2 = ∅ :=
  ⟨rfl, rfl, rfl⟩

/-- C8: on an index holding no vectors, `search` returns the empty result
list for every query vector and every `top_k` (and, being a total function
of the model, raises no error). -/
theorem C8_search_empty_index (s : ModuleState) (q : Vec) (k : Nat)
    (h : (get_index_size s).2 = 0) : (search s q k).2 = [] := by
  unfold get_index_size at h
  unfold search
  cases hidx : (ensure_loaded s).index with
  | none => simp [hidx]
  | some idx =>
    simp only [hidx] at h
    simp [hidx, h]

/-- Witness for C8: the fresh empty deployment, `search(q, top_k=5)`. -/
theorem C8_search_empty_index_witness :
    (get_index_size initialState).2 = 0 ∧
    (search initialState [(0 : ℚ)] 5).2 = [] :=
  ⟨rfl, C8_search_empty_index initialState [(0 : ℚ)] 5 rfl⟩

/-- C2 (code bug): `add_to_index` never compares `len(embeddings)` with
`len(chunks_metadata)`.  Offering 1 vector together with 2 metadata entries
returns normally and appends both, leaving `size() == 1` against a metadata
log of length 2 — the claimed failure does not happen. -/
theorem C2_add_length_mismatch_not_rejected :
    (add_to_index initialState ⟨2, [[1, 2]]⟩
      [⟨"t", 1, 0, "a.pdf"⟩, ⟨"u", 1, 1, "a.pdf"⟩]).2 = Except.ok () ∧
    (get_index_size (add_to_index initialState ⟨2, [[1, 2]]⟩
      [⟨"t", 1, 0, "a.pdf"⟩, ⟨"u", 1, 1, "a.pdf"⟩]).1).2 = 1 ∧
    ((add_to_index initialState ⟨2, [[1, 2]]⟩
      [⟨"t", 1, 0, "a.pdf"⟩, ⟨"u", 1, 1, "a.pdf"⟩]).1).metadata.length = 2 :=
  ⟨rfl, rfl, rfl⟩

/-- Counterexample for C1 as stated: a single `add` call carrying 1 vector
and 2 metadata entries leaves `size() == 1` but a metadata log of length 2,
so the invariant does not hold over arbitrary sequences of `add` calls. -/
theorem C1_counterexample :
    (get_index_size (addStep initialState
      (⟨2, [[1, 2]]⟩, [⟨"t", 1, 0, "a.pdf"⟩, ⟨"u", 1, 1, "a.pdf"⟩]))).2 = 1 ∧
    (addStep initialState
      (⟨2, [[1, 2]]⟩, [⟨"t", 1, 0, "a.pdf"⟩, ⟨"u", 1, 1, "a.pdf"⟩])).metadata.length = 2 ∧
    (1 : Nat) ≠ 2 :=
  ⟨rfl, rfl, by decide⟩

/-- Counterexample for C3 as stated: `_chunk_pages_simple` restarts
`global_chunk_id` at 0 on every call, so the first chunk of a second
ingestion gets id 0 again instead of an id strictly greater than the ids
already in the corpus. -/
theorem C3_counterexample :
    (chunk_pages_simple splitShort [⟨1, "hello", "a.pdf"⟩]).map
      (fun c => c.chunk_id) = [0] ∧
    (chunk_pages_simple splitShort [⟨1, "world", "b.pdf"⟩]).map
      (fun c => c.chunk_id) = [0] ∧
    ¬ (0 : Nat) > 0 :=
  ⟨rfl, rfl, by decide⟩

/-- Counterexample for C6 as stated: with the non-`None` filter `""`
(falsy in Python), no source filtering happens, and a passage whose
`pdf_name` is `"a.pdf" ≠ ""` is returned. -/
theorem C6_counterexample :
    ((retrieve [(0 : ℚ)]
        (⟨some ⟨1, [[0]]⟩, [⟨"hello", 1, 0, "a.pdf"⟩], ⟨none, none⟩⟩ : ModuleState)
        5 RELEVANCE_THRESHOLD (some "")).2).map (fun rc => rc.pdf_name) = ["a.pdf"] ∧
    ("a.pdf" : String) ≠ "" := by
  constructor
  · norm_num [retrieve, search, fetch_k, truthy, ensure_loaded, faissSearch,
      sortByDist, insertByDist, l2sq, retrieveLoop, toRC, pyRound4, roundHalfEven,
      RELEVANCE_THRESHOLD, List.enum, List.enumFrom, List.filterMap, List.replicate]
  · decide

/-- Counterexample for C9 as stated: the code only strips the edges of each
line — it does not collapse internal whitespace.  On the raw page `"a  b"`
the emitted text keeps the double space, while the claim's transform
collapses it. -/
theorem C9_counterexample :
    (extract_text_from_pdf "doc.pdf" [some "a  b"]).map (fun p => p.text) = ["a  b"] ∧
    cleanTextClaim "a  b" = "a b" ∧
    ("a  b" : String) ≠ "a b" :=
  ⟨by decide, by decide, by decide⟩

/-- C4: once the loaded index exists with dimension `D`, an `add` offering
vectors of a different width raises the FAISS dimension assertion, and
afterwards the module state is exactly the pre-add state: `size()`, the
metadata log and the stored vectors are all unchanged. -/
theorem C4_dim_mismatch (s : ModuleState) (emb : NpMatrix) (cm : List Chunk)
    (idx : FaissIndex) (h1 : (ensure_loaded s).index = some idx)
    (h2 : emb.width ≠ idx.dim) :
    (add_to_index s emb cm).2 = Except.error "assert d == self.d" ∧
    (add_to_index s emb cm).1 = ensure_loaded s ∧
    (get_index_size (add_to_index s emb cm).1).2 = (get_index_size s).2 ∧
    ((add_to_index s emb cm).1).metadata = (ensure_loaded s).metadata ∧
    ((add_to_index s emb cm).1).index = some idx := by
  have hadd : add_to_index s emb cm
      = (ensure_loaded s, Except.error "assert d == self.d") := by
    unfold add_to_index
    simp only [h1]
    unfold faissAdd
    simp [h2]
  rw [hadd]
  exact ⟨rfl, rfl, get_index_size_ensure_loaded s, rfl, h1⟩

/-- Witness for C4: a 2-dimensional index holding one vector, offered a
width-3 batch. -/
theorem C4_dim_mismatch_witness :
    ((ensure_loaded (⟨some ⟨2, [[0, 0]]⟩, [⟨"t", 1, 0, "a.pdf"⟩], ⟨none, none⟩⟩ : ModuleState)).index
        = some (⟨2, [[0, 0]]⟩ : FaissIndex)) ∧
    (3 : Nat) ≠ 2 ∧
    ((add_to_index (⟨some ⟨2, [[0, 0]]⟩, [⟨"t", 1, 0, "a.pdf"⟩], ⟨none, none⟩⟩ : ModuleState)
        ⟨3, [[1, 1, 1]]⟩ []).2 = Except.error "assert d == self.d" ∧
      (get_index_size (add_to_index (⟨some ⟨2, [[0, 0]]⟩, [⟨"t", 1, 0, "a.pdf"⟩], ⟨none, none⟩⟩ : ModuleState)
        ⟨3, [[1, 1, 1]]⟩ []).1).2 =
        (get_index_size (⟨some ⟨2, [[0, 0]]⟩, [⟨"t", 1, 0, "a.pdf"⟩], ⟨none, none⟩⟩ : ModuleState)).2) := by
  refine ⟨rfl, by decide, ?_, ?_⟩
  · exact (C4_dim_mismatch (⟨some ⟨2, [[0, 0]]⟩, [⟨"t", 1, 0, "a.pdf"⟩], ⟨none, none⟩⟩ : ModuleState)
      ⟨3, [[1, 1, 1]]⟩ [] ⟨2, [[0, 0]]⟩ rfl (by decide)).1
  · exact (C4_dim_mismatch (⟨some ⟨2, [[0, 0]]⟩, [⟨"t", 1, 0, "a.pdf"⟩], ⟨none, none⟩⟩ : ModuleState)
      ⟨3, [[1, 1, 1]]⟩ [] ⟨2, [[0, 0]]⟩ rfl (by decide)).2.2.1

theorem truthy_none : truthy none = false := rfl

theorem retrieveLoop_falsy (t : ℚ) (pf : Option String) (hpf : truthy pf = false) :
    ∀ (k : Nat) (l : List (Chunk × ℚ)),
      retrieveLoop t pf k l = retrieveLoop t none k l := by
  intro k l
  induction l generalizing k with
  | nil => rfl
  | cons hd tl ih =>
    obtain ⟨m, d⟩ := hd
    by_cases h1 : t < d
    · simp [retrieveLoop, h1, hpf, truthy_none, ih]
    · simp [retrieveLoop, h1, hpf, truthy_none, ih]

theorem retrieveLoop_eq_take (t : ℚ) (pf : Option String) :
    ∀ (k : Nat) (l : List (Chunk × ℚ)),
      retrieveLoop t pf k l = ((l.filter (keepB t pf)).map toRC).take (max 1 k) := by
  intro k l
  induction l generalizing k with
  | nil => simp [retrieveLoop]
  | cons hd tl ih =>
    obtain ⟨m, d⟩ := hd
    by_cases h1 : t < d
    · have hk : keepB t pf (m, d) = false := by simp [keepB, h1]
      simp [retrieveLoop, h1, List.filter_cons, hk, ih]
    · by_cases h2 : truthy pf = true ∧ m.pdf_name ≠ pf.getD ""
      · have hk : keepB t pf (m, d) = false := by
          simp [keepB, h1, h2.1, h2.2]
        simp [retrieveLoop, h1, h2, List.filter_cons, hk, ih]
      · have hk : keepB t pf (m, d) = true := by
          simp only [keepB, Bool.and_eq_true, Bool.not_eq_true', decide_eq_false_iff_not,
            not_lt, Bool.not_and, Bool.or_eq_true, Bool.not_eq_true, decide_eq_true_eq,
            Bool.and_eq_false_iff]
          constructor
          · simpa [decide_eq_false_iff_not] using h1
          · rcases not_and_or.mp h2 with h | h
            · exact Or.inl (by simpa using h)
            · exact Or.inr (by simpa [decide_eq_false_iff_not] using h)
        by_cases h3 : k ≤ 1
        · have hm : max 1 k = 1 := by omega
          simp [retrieveLoop, h1, h2, h3, List.filter_cons, hk, hm]
        · have hstep : ∀ xs : List RetrievedChunk,
              List.take (max 1 k) (toRC (m, d) :: xs) = toRC (m, d) :: List.take (k - 1) xs := by
            intro xs
            have hx : max 1 k = (k - 1) + 1 := by omega
            rw [hx, List.take_succ_cons]
          have hm2 : max 1 (k - 1) = k - 1 := by omega
          simp only [retrieveLoop, if_neg h1, if_neg h2, if_neg h3, List.filter_cons, hk,
            if_true, List.map_cons, hstep, ih, hm2]

theorem retrieveLoop_length (t : ℚ) (pf : Option String) (k : Nat)
    (l : List (Chunk × ℚ)) :
    (retrieveLoop t pf k l).length = min (max 1 k) (l.filter (keepB t pf)).length := by
  rw [retrieveLoop_eq_take]
  simp [List.length_take]

theorem keepB_mono {t1 t2 : ℚ} (h : t1 ≤ t2) (pf : Option String) (p : Chunk × ℚ)
    (hk : keepB t1 pf p = true) : keepB t2 pf p = true := by
  simp only [keepB, Bool.and_eq_true, Bool.not_eq_true', decide_eq_false_iff_not,
    not_lt] at hk ⊢
  exact ⟨le_trans hk.1 h, hk.2⟩

/-- C5: for a fixed query embedding, module state, `top_k` and filter,
raising the distance threshold never decreases the number of passages
`retrieve` returns. -/
theorem C5_threshold_monotone (qe : Vec) (s : ModuleState) (k : Nat)
    (pf : Option String) (t1 t2 : ℚ) (h : t1 ≤ t2) :
    ((retrieve qe s k t1 pf).2).length ≤ ((retrieve qe s k t2 pf).2).length := by
  unfold retrieve
  simp only
  rw [retrieveLoop_length, retrieveLoop_length]
  refine min_le_min (le_refl _) ?_
  exact (List.monotone_filter_right _ (fun a ha => keepB_mono h pf a ha)).length_le

/-- Witness for C5: thresholds 1 ≤ 2 on a concrete one-vector state. -/
theorem C5_threshold_monotone_witness :
    (1 : ℚ) ≤ 2 ∧
    ((retrieve [(0 : ℚ)]
        (⟨some ⟨1, [[0]]⟩, [⟨"hello", 1, 0, "a.pdf"⟩], ⟨none, none⟩⟩ : ModuleState)
        5 1 none).2).length ≤
      ((retrieve [(0 : ℚ)]
        (⟨some ⟨1, [[0]]⟩, [⟨"hello", 1, 0, "a.pdf"⟩], ⟨none, none⟩⟩ : ModuleState)
        5 2 none).2).length :=
  ⟨by norm_num,
   C5_threshold_monotone [(0 : ℚ)]
     (⟨some ⟨1, [[0]]⟩, [⟨"hello", 1, 0, "a.pdf"⟩], ⟨none, none⟩⟩ : ModuleState)
     5 none 1 2 (by norm_num)⟩

/-- C6 (amended): for every non-`None`, non-empty source filter `X`, every
passage returned by `retrieve` with `pdf_filter = X` has `pdf_name = X`
(the empty string is falsy in Python and disables filtering, see C10). -/
theorem C6_source_filter_exact (qe : Vec) (s : ModuleState) (k : Nat) (t : ℚ)
    (x : String) (hx : x ≠ "") :
    ∀ rc ∈ (retrieve qe s k t (some x)).2, rc.pdf_name = x := by
  intro rc hrc
  unfold retrieve at hrc
  simp only at hrc
  rw [retrieveLoop_eq_take] at hrc
  have hrc' := List.mem_of_mem_take hrc
  obtain ⟨p, hp, hrfl⟩ := List.mem_map.mp hrc'
  have hkeep := List.of_mem_filter hp
  simp only [keepB, Bool.and_eq_true, Bool.not_eq_true', Bool.not_and,
    Bool.or_eq_true, Bool.not_eq_true, decide_eq_false_iff_not, not_not] at hkeep
  rcases hkeep.2 with h | h
  · exfalso
    have : truthy (some x) = true := by simpa [truthy] using hx
    rw [this] at h
    simp at h
  · rw [← hrfl]
    simpa [toRC, Option.getD] using h

/-- Witness for C6: the filter `"a.pdf"` on a concrete one-vector state. -/
theorem C6_source_filter_exact_witness :
    ("a.pdf" : String) ≠ "" ∧
    (∀ rc ∈ (retrieve [(0 : ℚ)]
        (⟨some ⟨1, [[0]]⟩, [⟨"hello", 1, 0, "a.pdf"⟩], ⟨none, none⟩⟩ : ModuleState)
        5 RELEVANCE_THRESHOLD (some "a.pdf")).2, rc.pdf_name = "a.pdf") :=
  ⟨by decide,
   C6_source_filter_exact [(0 : ℚ)]
     (⟨some ⟨1, [[0]]⟩, [⟨"hello", 1, 0, "a.pdf"⟩], ⟨none, none⟩⟩ : ModuleState)
     5 RELEVANCE_THRESHOLD "a.pdf" (by decide)⟩

/-- C10: `retrieve` with `pdf_filter = ""` behaves exactly like
`pdf_filter = None`: the candidate fetch count stays `top_k`, and the
whole result (state and passages) coincides with the unfiltered call. -/
theorem C10_empty_filter_is_no_filter (qe : Vec) (s : ModuleState) (k : Nat)
    (t : ℚ) :
    retrieve qe s k t (some "") = retrieve qe s k t none ∧
    fetch_k (some "") k = k := by
  constructor
  · unfold retrieve
    have hf : fetch_k (some "") k = fetch_k none k := rfl
    rw [hf]
    simp only
    rw [retrieveLoop_falsy t (some "") rfl]
  · rfl

theorem save_some (i : FaissIndex) (m : List Chunk) (d : Disk) :
    save ⟨some i, m, d⟩ = ⟨some i, m, ⟨some i, some m⟩⟩ := rfl

theorem add_to_index_none {s : ModuleState} (hidx : (ensure_loaded s).index = none)
    (emb : NpMatrix) (cm : List Chunk) :
    add_to_index s emb cm =
      (save ⟨some ⟨emb.width, emb.rows⟩, cm, (ensure_loaded s).disk⟩, Except.ok ()) := by
  unfold add_to_index
  simp [hidx, faissAdd]

theorem add_to_index_some_ok {s : ModuleState} {idx : FaissIndex}
    (hidx : (ensure_loaded s).index = some idx) (emb : NpMatrix) (cm : List Chunk)
    (hw : emb.width = idx.dim) :
    add_to_index s emb cm =
      (save ⟨some ⟨idx.dim, idx.vectors ++ emb.rows⟩,
             (ensure_loaded s).metadata ++ cm,
             (ensure_loaded s).disk⟩, Except.ok ()) := by
  unfold add_to_index
  simp [hidx, faissAdd, hw]

theorem add_to_index_some_err {s : ModuleState} {idx : FaissIndex}
    (hidx : (ensure_loaded s).index = some idx) (emb : NpMatrix) (cm : List Chunk)
    (hw : ¬ emb.width = idx.dim) :
    add_to_index s emb cm = (ensure_loaded s, Except.error "assert d == self.d") := by
  unfold add_to_index
  simp [hidx, faissAdd, hw]

theorem ensure_loaded_inv {s : ModuleState} (h : Inv s) : Inv (ensure_loaded s) := by
  obtain ⟨hmem, hdisk, hnone⟩ := h
  cases hidx : s.index with
  | some idx =>
    rw [ensure_loaded_of_some hidx]
    exact ⟨hmem, hdisk, hnone⟩
  | none =>
    have hd := hnone hidx
    have he : ensure_loaded s = s := by
      unfold ensure_loaded
      rw [hidx, hd]
    rw [he]
    exact ⟨hmem, hdisk, hnone⟩

theorem add_to_index_inv {s : ModuleState} (h : Inv s) (emb : NpMatrix)
    (cm : List Chunk) (hlen : emb.rows.length = cm.length) :
    Inv (add_to_index s emb cm).1 := by
  obtain ⟨hmem, hdisk, hnone⟩ := ensure_loaded_inv h
  cases hidx : (ensure_loaded s).index with
  | none =>
    rw [add_to_index_none hidx, save_some]
    refine ⟨by simpa [memSize] using hlen, ?_, by simp⟩
    intro i m hi hm
    simp only [Option.some.injEq] at hi hm
    subst hi
    subst hm
    simpa using hlen
  | some idx =>
    by_cases hw : emb.width = idx.dim
    · rw [add_to_index_some_ok hidx emb cm hw, save_some]
      have hms : idx.vectors.length = (ensure_loaded s).metadata.length := by
        simpa [memSize, hidx] using hmem
      refine ⟨?_, ?_, by simp⟩
      · simp only [memSize, List.length_append]
        rw [hms, hlen]
      · intro i m hi hm
        simp only [Option.some.injEq] at hi hm
        subst hi
        subst hm
        simp only [List.length_append]
        rw [hms, hlen]
    · rw [add_to_index_some_err hidx emb cm hw]
      exact ⟨hmem, hdisk, hnone⟩

theorem initialState_inv : Inv initialState := by
  refine ⟨rfl, ?_, fun _ => rfl⟩
  intro i m hi hm
  cases hi

theorem foldl_addStep_inv (ops : List (NpMatrix × List Chunk))
    (hops : ∀ op ∈ ops, op.1.rows.length = op.2.length) (s : ModuleState)
    (hs : Inv s) : Inv (ops.foldl addStep s) := by
  induction ops generalizing s with
  | nil => exact hs
  | cons op rest ih =>
    simp only [List.foldl_cons]
    exact ih (fun o ho => hops o (List.mem_cons_of_mem _ ho))
      _ (add_to_index_inv hs op.1 op.2 (hops op (List.mem_cons_self _ _)))

theorem size_eq_of_inv {s : ModuleState} (h : Inv s) :
    (get_index_size s).2 = s.metadata.length := by
  obtain ⟨hmem, hdisk, hnone⟩ := h
  show memSize (ensure_loaded s) = s.metadata.length
  cases hidx : s.index with
  | some idx =>
    rw [ensure_loaded_of_some hidx]
    exact hmem
  | none =>
    have hd := hnone hidx
    have he : ensure_loaded s = s := by
      unfold ensure_loaded
      rw [hidx, hd]
    rw [he]
    exact hmem


theorem mem_insertByDist {x a : Int × ℚ} {l : List (Int × ℚ)}
    (h : x ∈ insertByDist a l) : x = a ∨ x ∈ l := by
  induction l with
  | nil => simpa [insertByDist] using h
  | cons y ys ih =>
    unfold insertByDist at h
    by_cases hlt : a.2 < y.2
    · rw [if_pos hlt] at h
      rcases List.mem_cons.mp h with h | h
      · exact Or.inl h
      · exact Or.inr h
    · rw [if_neg hlt] at h
      rcases List.mem_cons.mp h with h | h
      · exact Or.inr (h ▸ List.mem_cons_self _ _)
      · rcases ih h with h | h
        · exact Or.inl h
        · exact Or.inr (List.mem_cons_of_mem _ h)

theorem mem_sortByDist {x : Int × ℚ} {l : List (Int × ℚ)}
    (h : x ∈ sortByDist l) : x ∈ l := by
  induction l with
  | nil => simp [sortByDist] at h
  | cons y ys ih =>
    unfold sortByDist at h
    rcases mem_insertByDist h with h | h
    · exact h ▸ List.mem_cons_self _ _
    · exact List.mem_cons_of_mem _ (ih h)

theorem faissSearch_index_bound {idx : FaissIndex} {q : Vec} {k : Nat}
    {p : Int × ℚ} (h : p ∈ faissSearch idx q k) :
    p.1 = -1 ∨ (0 ≤ p.1 ∧ p.1.toNat < idx.vectors.length) := by
  unfold faissSearch at h
  rcases List.mem_append.mp h with h | h
  · have h2 := mem_sortByDist (List.mem_of_mem_take h)
    obtain ⟨q', hq, hmap⟩ := List.mem_map.mp h2
    right
    have hb : q'.1 < idx.vectors.length := by
      obtain ⟨i, a⟩ := q'
      have := List.mem_enum_iff_getElem?.mp hq
      simpa using (List.getElem?_eq_some.mp this).1
    rw [← hmap]
    refine ⟨Int.ofNat_nonneg _, ?_⟩
    simpa using hb
  · have := List.eq_of_mem_replicate h
    rw [this]
    exact Or.inl rfl

theorem search_result_indexed (s : ModuleState) (q : Vec) (k : Nat) :
    ∀ p ∈ (search s q k).2, ∃ i, ∃ hi : i < (ensure_loaded s).metadata.length,
      p.1 = (ensure_loaded s).metadata.get ⟨i, hi⟩ ∧ i < (get_index_size s).2 := by
  intro p hp
  unfold search at hp
  cases hidx : (ensure_loaded s).index with
  | none => simp [hidx] at hp
  | some idx =>
    simp only [hidx] at hp
    by_cases h0 : idx.vectors.length = 0
    · simp [h0] at hp
    · rw [if_neg h0] at hp
      simp only [List.mem_filterMap] at hp
      obtain ⟨a, ha, hfa⟩ := hp
      by_cases hm1 : a.1 = -1
      · simp [hm1] at hfa
      · rw [if_neg hm1] at hfa
        by_cases hlt : a.1.toNat < (ensure_loaded s).metadata.length
        · rw [dif_pos hlt] at hfa
          have hp2 : p = ((ensure_loaded s).metadata.get ⟨a.1.toNat, hlt⟩, a.2) :=
            (Option.some.injEq _ _ ▸ hfa).symm
          refine ⟨a.1.toNat, hlt, ?_, ?_⟩
          · rw [hp2]
          · rcases faissSearch_index_bound ha with h | h
            · exact absurd h hm1
            · have : (get_index_size s).2 = idx.vectors.length := by
                show memSize (ensure_loaded s) = _
                simp [memSize, hidx]
              rw [this]
              exact h.2
        · rw [dif_neg hlt] at hfa
          cases hfa


/-- C1 (amended): starting from a fresh deployment, over every sequence of
`add` calls in which each call supplies equally many vectors and metadata
entries, `size()` equals the length of the metadata log; and, for every
state, every entry returned by `search` is the metadata entry at a log
index strictly below the current vector count. -/
theorem C1_parallel_invariant (ops : List (NpMatrix × List Chunk))
    (hops : ∀ op ∈ ops, op.1.rows.length = op.2.length) :
    ((get_index_size (ops.foldl addStep initialState)).2 =
      (ops.foldl addStep initialState).metadata.length) ∧
    ∀ (s : ModuleState) (q : Vec) (k : Nat), ∀ p ∈ (search s q k).2,
      ∃ i, ∃ hi : i < (ensure_loaded s).metadata.length,
        p.1 = (ensure_loaded s).metadata.get ⟨i, hi⟩ ∧ i < (get_index_size s).2 :=
  ⟨size_eq_of_inv (foldl_addStep_inv ops hops initialState initialState_inv),
   search_result_indexed⟩

/-- Witness for C1: a single balanced `add` of one width-1 vector with one
metadata entry. -/
theorem C1_parallel_invariant_witness :
    (∀ op ∈ [((⟨1, [[(0 : ℚ)]]⟩ : NpMatrix), [(⟨"t", 1, 0, "a.pdf"⟩ : Chunk)])],
        op.1.rows.length = op.2.length) ∧
    ((get_index_size
        ([((⟨1, [[(0 : ℚ)]]⟩ : NpMatrix), [(⟨"t", 1, 0, "a.pdf"⟩ : Chunk)])].foldl
          addStep initialState)).2 =
      ([((⟨1, [[(0 : ℚ)]]⟩ : NpMatrix), [(⟨"t", 1, 0, "a.pdf"⟩ : Chunk)])].foldl
          addStep initialState).metadata.length) :=
  ⟨by decide,
   (C1_parallel_invariant
     [((⟨1, [[(0 : ℚ)]]⟩ : NpMatrix), [(⟨"t", 1, 0, "a.pdf"⟩ : Chunk)])]
     (by decide)).1⟩

theorem enumFrom_map_fst_add {α : Type} (g : Nat) :
    ∀ (l : List α) (n : Nat),
      (l.enumFrom n).map (fun p => g + p.1) = List.range' (g + n) l.length := by
  intro l
  induction l with
  | nil => intro n; rfl
  | cons x xs ih =>
    intro n
    simp only [List.enumFrom, List.map_cons, List.length_cons, List.range'_succ, ih]
    rw [Nat.add_succ, Nat.add_succ, Nat.add_zero]

theorem range'_append_consec (s m n : Nat) :
    List.range' s m ++ List.range' (s + m) n = List.range' s (m + n) := by
  induction m generalizing s with
  | zero => simp
  | succ m ih =>
    simp only [List.range'_succ, List.cons_append, Nat.succ_add]
    rw [show s + (m + 1) = (s + 1) + m by omega, ih]

theorem chunkGo_chunk_ids (f : String → List String) :
    ∀ (pages : List PageData) (g : Nat),
      (chunkGo f pages g).map (fun c => c.chunk_id) =
        List.range' g (chunkGo f pages g).length := by
  intro pages
  induction pages with
  | nil => intro g; rfl
  | cons pd rest ih =>
    intro g
    by_cases h : pyStrip pd.text = ""
    · simp only [chunkGo, if_pos h]
      exact ih g
    · simp only [chunkGo, if_neg h, List.map_append, List.map_map, ih,
        List.length_append, List.length_map, List.enumFrom_length]
      have h1 : ((f pd.text).enum.map
          ((fun c => c.chunk_id) ∘ fun p => (⟨p.2, pd.page, g + p.1, pd.pdf_name⟩ : Chunk)))
          = (f pd.text).enum.map (fun p => g + p.1) := rfl
      rw [h1]
      unfold List.enum
      rw [enumFrom_map_fst_add g (f pd.text) 0, Nat.add_zero, List.enumFrom_length]
      exact range'_append_consec g (f pd.text).length (chunkGo f rest (g + (f pd.text).length)).length

/-- C3 (amended): within one call, `_chunk_pages_simple` assigns chunk ids
0, 1, 2, … in order — unique and strictly increasing, but starting at 0 on
every call (per ingestion), not continuing where the prior corpus left off. -/
theorem C3_chunk_ids_sequential_per_call (f : String → List String)
    (pages : List PageData) :
    (chunk_pages_simple f pages).map (fun c => c.chunk_id) =
      List.range (chunk_pages_simple f pages).length := by
  unfold chunk_pages_simple
  rw [chunkGo_chunk_ids f pages 0, List.range_eq_range']

theorem dropWhile_forall {α : Type} {p : α → Bool} {l : List α} :
    (∀ x ∈ l.dropWhile p, p x) ↔ ∀ x ∈ l, p x := by
  constructor
  · intro h x hx
    rcases List.mem_append.mp ((List.takeWhile_append_dropWhile p l) ▸ hx) with hx | hx
    · exact List.mem_takeWhile_imp hx
    · exact h x hx
  · intro h x hx
    exact h x ((List.dropWhile_sublist p).subset hx)

theorem pyStrip_eq_empty_iff (t : String) :
    pyStrip t = "" ↔ ∀ c ∈ t.data, isPySpace c := by
  unfold pyStrip
  rw [show ("" : String) = ⟨[]⟩ from rfl, String.ext_iff]
  show (List.dropWhile isPySpace (List.dropWhile isPySpace t.data).reverse).reverse = [] ↔ _
  rw [List.reverse_eq_nil_iff]
  rw [List.dropWhile_eq_nil_iff]
  constructor
  · intro h c hc
    have h2 : ∀ x ∈ t.data.dropWhile isPySpace, isPySpace x := by
      intro x hx
      exact h x (List.mem_reverse.mpr hx)
    exact dropWhile_forall.mp h2 c hc
  · intro h c hc
    exact h c ((List.dropWhile_sublist isPySpace).subset (List.mem_reverse.mp hc))

theorem extract_cond_iff (t : String) :
    (t ≠ "" ∧ pyStrip t ≠ "") ↔ t.data.any (fun c => !(isPySpace c)) = true := by
  rw [List.any_eq_true]
  constructor
  · rintro ⟨ht, hs⟩
    by_contra hno
    push_neg at hno
    refine hs ((pyStrip_eq_empty_iff t).mpr ?_)
    intro c hc
    have := hno c hc
    simpa using this
  · rintro ⟨c, hc, hcs⟩
    constructor
    · intro h
      rw [h] at hc
      simp at hc
    · intro h
      have := (pyStrip_eq_empty_iff t).mp h c hc
      rw [this] at hcs
      simp at hcs

theorem clean_lines_eq (l : List String) :
    clean_lines l = (l.map pyStrip).filter (fun x => x ≠ "") := by
  induction l with
  | nil => rfl
  | cons hd tl ih =>
    by_cases h : pyStrip hd = "" <;>
      simp [clean_lines, h, ih, List.filter_cons]

theorem extractGo_eq (name : String) :
    ∀ (pages : List (Option String)) (i : Nat),
      extractGo name i pages = (pages.enumFrom i).filterMap (fun p =>
        match p.2 with
        | some t =>
          if t ≠ "" ∧ pyStrip t ≠ "" then some ⟨p.1 + 1, clean_text t, name⟩
          else none
        | none => none) := by
  intro pages
  induction pages with
  | nil => intro i; rfl
  | cons hd tl ih =>
    intro i
    cases hd with
    | none =>
      simp only [extractGo, List.enumFrom, List.filterMap_cons]
      exact ih (i + 1)
    | some t =>
      by_cases h : t ≠ "" ∧ pyStrip t ≠ ""
      · simp only [extractGo, if_pos h, List.enumFrom, List.filterMap_cons, if_pos h]
        rw [ih (i + 1)]
      · simp only [extractGo, if_neg h, List.enumFrom, List.filterMap_cons, if_neg h]
        exact ih (i + 1)

/-- C9 (amended): the extractor emits one Page exactly for each raw page
containing a non-whitespace character, and the emitted text is the raw text
split at newlines, each line stripped of leading and trailing whitespace,
blank lines dropped, and the surviving lines joined with single spaces
(internal whitespace inside a line is preserved, not collapsed). -/
theorem C9_extract_pages (name : String) (raw_pages : List (Option String)) :
    extract_text_from_pdf name raw_pages = extractClaim name raw_pages := by
  unfold extract_text_from_pdf extractClaim
  rw [extractGo_eq]
  unfold List.enum
  apply List.filterMap_congr
  intro p hp
  obtain ⟨i, t?⟩ := p
  cases t? with
  | none => rfl
  | some t =>
    simp only
    by_cases h : t ≠ "" ∧ pyStrip t ≠ ""
    · rw [if_pos h, if_pos ((extract_cond_iff t).mp h)]
      unfold clean_text
      rw [clean_lines_eq]
    · rw [if_neg h, if_neg (fun hx => h ((extract_cond_iff t).mpr hx))]

end VoiceTutor
